import Mathlib

/-!
Verification development for the `healthkube` reconciliation engine
(`src/main.rs`).  The Rust program lists Kubernetes `CronJob`s per
namespace, derives a frequency-filtered tag vocabulary from the job
names, upserts a healthcheck per job, annotates the job's containers
with an identifying environment variable, and writes back mutated jobs.

The shallow embedding below translates the relevant Rust data types and
functions into Lean.  Machine integers: the segment counter in the
source is a `u8` accumulated with `+= 1`; release builds wrap on
overflow, so counts are modelled as `Nat` reduced `% 256` at each
increment.  `String.split('-')` is modelled character by character
(`splitDash`), matching Rust's `str::split` on a `char` pattern.
Fallible remote calls are modelled as `Option`-returning oracles.
-/

namespace Healthkube

/-- Embedding of `k8s_openapi::api::core::v1::EnvVar` (the fields the
program touches): `name: String`, `value: Option<String>`. -/
structure EnvVar where
  name : String
  value : Option String
deriving DecidableEq, Repr

/-- Embedding of `k8s_openapi::api::core::v1::Container` (the field the
program touches): `env: Option<Vec<EnvVar>>`. -/
structure Container where
  env : Option (List EnvVar)
deriving DecidableEq, Repr

/-- Embedding of `PodSpec`: `containers: Vec<Container>`. -/
structure PodSpec where
  containers : List Container
deriving DecidableEq, Repr

/-- Embedding of `PodTemplateSpec`: `spec: Option<PodSpec>`. -/
structure PodTemplateSpec where
  spec : Option PodSpec
deriving DecidableEq, Repr

/-- Embedding of `batch::v1::JobSpec`: `template: PodTemplateSpec`. -/
structure JobSpec where
  template : PodTemplateSpec
deriving DecidableEq, Repr

/-- Embedding of `JobTemplateSpec`: `spec: Option<JobSpec>`. -/
structure JobTemplateSpec where
  spec : Option JobSpec
deriving DecidableEq, Repr

/-- Embedding of `CronJobSpec` (fields the program touches):
`schedule: String` (a required field of the type) and
`job_template: JobTemplateSpec`. -/
structure CronJobSpec where
  schedule : String
  job_template : JobTemplateSpec
deriving DecidableEq, Repr

/-- Embedding of `ObjectMeta` (the field the program touches):
`name: Option<String>`. -/
structure ObjectMeta where
  name : Option String
deriving DecidableEq, Repr

/-- Embedding of `batch::v1::CronJob`: `metadata: ObjectMeta`,
`spec: Option<CronJobSpec>`. -/
structure CronJob where
  metadata : ObjectMeta
  spec : Option CronJobSpec
deriving DecidableEq, Repr

/-- Embedding of `fn describe(job: &mut CronJob)`: extracts
`(name, schedule, containers)`, returning `none` as soon as any
optional field on the path is absent.  The Rust function returns
mutable references; the pure embedding returns the container list by
value and `setContainers` below plays the role of writing through the
reference. -/
def describe (job : CronJob) : Option (String × String × List Container) :=
  match job.metadata.name with
  | none => none
  | some name =>
    match job.spec with
    | none => none
    | some spec =>
      let schedule := spec.schedule
      match spec.job_template.spec with
      | none => none
      | some jspec =>
        match jspec.template.spec with
        | none => none
        | some pspec => some (name, schedule, pspec.containers)

/-- Writing an updated container list back through the mutable
reference returned by `describe`.  If the path of optional fields is
not fully present (in which case `describe` returned `none` and the
program never mutates), the job is returned unchanged. -/
def setContainers (job : CronJob) (cs : List Container) : CronJob :=
  match job.spec with
  | none => job
  | some s =>
    match s.job_template.spec with
    | none => job
    | some js =>
      match js.template.spec with
      | none => job
      | some ps =>
        { job with
          spec := some
            { s with
              job_template :=
                { spec := some
                    { js with
                      template :=
                        { spec := some { ps with containers := cs } } } } } }

/-- Rust `name.split('-')` character by character: every maximal run
between `-` delimiters is a piece, empty pieces included (so `""`
splits to `[""]` and `"a--b"` to `["a", "", "b"]`). -/
def splitDash : List Char → List (List Char)
  | [] => [[]]
  | c :: rest =>
    if c = '-' then
      [] :: splitDash rest
    else
      match splitDash rest with
      | [] => [[c]]
      | s :: ss => (c :: s) :: ss

/-- The `-`-segments of a job name, as strings. -/
def segs (name : String) : List String :=
  (splitDash name.toList).map String.mk

/-- One step of the counting fold
`*acc.entry(item).or_default() += 1`: the first entry holding the key
is incremented (wrapping at 256, as the counter is a `u8`), and a fresh
key is inserted with count `1`.  The `HashMap` is modelled as an
association list keyed by segment. -/
def bump : List (String × Nat) → String → List (String × Nat)
  | [], item => [(item, 1 % 256)]
  | (k, v) :: rest, item =>
    if k = item then (k, (v + 1) % 256) :: rest
    else (k, v) :: bump rest item

/-- The counting fold over the whole segment population:
`definitions.iter().flat_map(name.split('-')).fold(HashMap::new(), ..)`. -/
def countSegments (items : List String) : List (String × Nat) :=
  items.foldl bump []

/-- The flat segment population of a list of job names. -/
def population (names : List String) : List String :=
  (names.map segs).flatten

/-- The number of occurrences of segment `s` across the job-name
population (the mathematical count, before `u8` wrapping). -/
def popCount (names : List String) (s : String) : Nat :=
  (population names).count s

/-- `HashMap::contains_key` on the association-list model. -/
def containsKey (m : List (String × Nat)) (s : String) : Bool :=
  (m.lookup s).isSome

/-- Embedding of the `common_tags` block: count every `-`-segment of
the surviving descriptor names, remove the literal `"job"`, and, when
`rank > 0`, retain only segments with count `>= rank`. -/
def commonTags (names : List String) (rank : Nat) : List (String × Nat) :=
  let m := countSegments (population names)
  let m := m.filter (fun kv => kv.1 ≠ "job")
  if rank > 0 then m.filter (fun kv => rank ≤ kv.2) else m

/-- Embedding of the per-job tag string:
`name.split('-').filter(|s| common_tags.contains_key(s)).intersperse(" ").collect()`. -/
def tagsFor (vocab : String → Bool) (name : String) : String :=
  String.join (((segs name).filter vocab).intersperse " ")

/-- Embedding of the body of the `retain_mut` closure acting on one
container's env list, given the configured `env_key` and the obtained
`check_id`: find the first entry whose `name` equals the key
(`env.iter_mut().find(..)`); if it carries a value (`.and_then(|var|
var.value.as_mut())`), compare and overwrite in place when it differs;
otherwise (no entry with the key, or the first such entry has no
value) push a fresh `{key, value: check_id}` entry at the end.  The
returned `Bool` is the closure's return value: `true` iff the list was
mutated (which is also what keeps the container in the list). -/
def annotateEnv (key checkId : String) : List EnvVar → List EnvVar × Bool
  | [] => ([⟨key, some checkId⟩], true)
  | e :: rest =>
    if e.name = key then
      match e.value with
      | some x =>
        if x = checkId then (e :: rest, false)
        else ({ e with value := some checkId } :: rest, true)
      | none => (e :: rest ++ [⟨key, some checkId⟩], true)
    else
      let (rest', dirty) := annotateEnv key checkId rest
      (e :: rest', dirty)

/-- Per-container annotation: a container without an env list is left
untouched and reported clean (`let Some(env) = .. else { return false }`). -/
def annotateContainer (key checkId : String) (c : Container) : Container × Bool :=
  match c.env with
  | none => (c, false)
  | some env =>
    let (env', dirty) := annotateEnv key checkId env
    ({ env := some env' }, dirty)

/-- `containers.retain_mut(..)`: every container is annotated, and only
the mutated (dirty) ones are kept in the job's container list. -/
def annotateContainers (key checkId : String) (cs : List Container) : List Container :=
  cs.filterMap fun c =>
    let (c', dirty) := annotateContainer key checkId c
    if dirty then some c' else none

/-- The run-wide configuration consumed by the engine: the parsed CLI
values `dry_run`, `rank` (a `u8`), the optional `env_key`, and the
healthcheck defaults (`timezone`, `timeout`, `grace`, and the joined
integration/channel list). -/
structure Config where
  dry_run : Bool
  rank : Nat
  env_key : Option String
  timezone : String
  timeout : Int
  grace : Int
  channels : String
deriving DecidableEq, Repr

/-- Embedding of `healthchecks::model::NewCheck` (the fields the
program sets). -/
structure NewCheck where
  name : Option String
  schedule : Option String
  tags : Option String
  unique : Option (List String)
  timeout : Option Int
  grace : Option Int
  tz : Option String
  channels : Option String
deriving DecidableEq, Repr

/-- Embedding of `healthchecks::manage::UpsertResult`. -/
inductive UpsertStatus where
  | created
  | updated
deriving DecidableEq, Repr

/-- The status string printed for an upsert outcome. -/
def statusText : UpsertStatus → String
  | .created => "Created"
  | .updated => "Updated"

/-- Remote calls and progress lines emitted by the engine, in order.
`deleteCheck`, `upsertCheck` and `replaceJob` are the mutating remote
calls; `report` is the dry-run preview line for one job and
`reportOutcome` the Created/Updated line. -/
inductive Event where
  | deleteCheck (id : String)
  | upsertCheck (check : NewCheck)
  | replaceJob (name : String) (job : CronJob)
  | report (name : String) (tags : String)
  | reportOutcome (name : String) (status : String) (id : String)
deriving DecidableEq, Repr

/-- Whether an event is a mutating remote call (as opposed to a
progress line; the read-only list calls are not recorded). -/
def Event.isMutating : Event → Bool
  | .deleteCheck _ => true
  | .upsertCheck _ => true
  | .replaceJob _ _ => true
  | .report _ _ => false
  | .reportOutcome _ _ _ => false

/-- The `NewCheck` built for one job: the per-target `default_check`
(timeout/grace/tz/channels from the configuration) overridden with the
job's name, schedule, computed tags, and `unique = ["name"]`. -/
def mkCheck (cfg : Config) (name schedule tags : String) : NewCheck :=
  { name := some name
    schedule := some schedule
    tags := some tags
    unique := some ["name"]
    timeout := some cfg.timeout
    grace := some cfg.grace
    tz := some cfg.timezone
    channels := some cfg.channels }

/-- The monitoring-service oracle: the combined outcome of
`hc_client.upsert_check(new_check).ok()` and `check.id()`: `none`
models a failed remote call, `some (status, none)` a response whose
check exposes no id, and `some (status, some id)` a successful upsert. -/
def Upsert : Type := NewCheck → Option (UpsertStatus × Option String)

/-- Embedding of the body of the per-descriptor `filter_map` closure
(reconcile + annotate for one job), returning the job as it stands
afterwards together with the events it emitted.  A job whose descriptor
is absent emits nothing and is untouched (it never entered
`definitions`). -/
def reconcileJob (cfg : Config) (upsert : Upsert) (vocab : String → Bool)
    (job : CronJob) : CronJob × List Event :=
  match describe job with
  | none => (job, [])
  | some (name, schedule, containers) =>
    let tags := tagsFor vocab name
    if cfg.dry_run then
      (job, [.report name tags])
    else
      let check := mkCheck cfg name schedule tags
      match upsert check with
      | none => (job, [.upsertCheck check])
      | some (_, none) => (job, [.upsertCheck check])
      | some (st, some checkId) =>
        match cfg.env_key with
        | none =>
          (setContainers job [],
           [.upsertCheck check, .reportOutcome name (statusText st) checkId])
        | some key =>
          (setContainers job (annotateContainers key checkId containers),
           [.upsertCheck check, .reportOutcome name (statusText st) checkId])

/-- The hard-coded name in the `jobs.retain(..)` call at the top of the
namespace loop. -/
def magicName : String := "sales-au-job-cleanup-shared-products-job"

/-- Embedding of `jobs.retain(..)`: only jobs bearing the hard-coded
name survive. -/
def retainJobs (jobs : List CronJob) : List CronJob :=
  jobs.filter fun job =>
    match job.metadata.name with
    | some n => n = magicName
    | none => false

/-- The names of the surviving descriptors
(`jobs.iter_mut().filter_map(describe)`). -/
def descNames (jobs : List CronJob) : List String :=
  (jobs.filterMap describe).map fun d => d.1

/-- The namespace vocabulary as a membership test:
`common_tags.contains_key(segment)`. -/
def vocabOf (rank : Nat) (jobs : List CronJob) : String → Bool :=
  fun s => containsKey (commonTags (descNames jobs) rank) s

/-- One iteration of the final write-back loop: a job whose descriptor
is absent or whose container list is empty is skipped; otherwise the
job is replaced via the orchestration API. -/
def writeBackEntry (job : CronJob) : Option Event :=
  match describe job with
  | none => none
  | some (name, _, containers) =>
    if containers.isEmpty then none else some (.replaceJob name job)

/-- The final write-back loop over the (mutated) job list. -/
def writeBack (jobs : List CronJob) : List Event :=
  jobs.filterMap writeBackEntry

/-- Embedding of the body of the namespace loop: retain, describe,
build the vocabulary, reconcile + annotate each job, then (unless
dry-run) write back every job left with a non-empty container list. -/
def processNamespace (cfg : Config) (upsert : Upsert)
    (jobs : List CronJob) : List Event :=
  let jobs := retainJobs jobs
  let vocab := vocabOf cfg.rank jobs
  let results := jobs.map (reconcileJob cfg upsert vocab)
  let events := (results.map Prod.snd).flatten
  if cfg.dry_run then events
  else events ++ writeBack (results.map Prod.fst)

/-- The whole run: the optional clear-existing-checks sweep (guarded by
`!dry_run`), then every namespace of every target in order.
`checkIds` models `get_checks()` followed by `filter_map(|c| c.id())`. -/
def run (cfg : Config) (clearExisting : Bool) (checkIds : List (Option String))
    (upsert : Upsert) (nss : List (List CronJob)) : List Event :=
  (if ¬cfg.dry_run ∧ clearExisting then
    (checkIds.filterMap id).map Event.deleteCheck
  else []) ++ (nss.map (processNamespace cfg upsert)).flatten

/-! ### Spec-side notions and concrete inputs used by the claims -/

/-- Overwriting the value of the first entry bearing `key` in place,
leaving every other entry and the order untouched (the spec's
"overwrite the value in place"). -/
def setFirstValue (key checkId : String) : List EnvVar → List EnvVar
  | [] => []
  | e :: rest =>
    if e.name = key then { e with value := some checkId } :: rest
    else e :: setFirstValue key checkId rest

/-- The environment entries of a container, the absent list read as
empty. -/
def envEntries (c : Container) : List EnvVar := c.env.getD []

/-- The per-container contract of claim C6, following the spec's words:
an entry with the key whose value equals the identifier leaves the
container unchanged and clean; an entry with a different value is
overwritten in place and marks dirty; when no entry with the key is
found among the container's environment entries, a fresh
`{key, value = identifier}` entry is appended and marks dirty. -/
def claimC6Holds (key checkId : String) (c : Container) : Prop :=
  match (envEntries c).find? (fun e => e.name = key) with
  | some e =>
    if e.value = some checkId then
      annotateContainer key checkId c = (c, false)
    else
      annotateContainer key checkId c =
        ({ env := some (setFirstValue key checkId (envEntries c)) }, true)
  | none =>
      annotateContainer key checkId c =
        ({ env := some (envEntries c ++ [⟨key, some checkId⟩]) }, true)

/-- The second job name of the spec's concrete scenarios A and B. -/
def otherName : String := "sales-au-job-cleanup-other-products-job"

/-- The two-job-name population of the spec's concrete scenarios. -/
def names2 : List String := [magicName, otherName]

/-- A fully-populated `CronJobSpec` with the given containers. -/
def specWith (cs : List Container) : CronJobSpec :=
  { schedule := "0 0 * * *"
    job_template := { spec := some { template := { spec := some { containers := cs } } } } }

/-- A fully-populated job that does not bear the hard-coded name. -/
def jobOther : CronJob :=
  { metadata := { name := some "some-other-cron" }
    spec := some (specWith [{ env := some [] }]) }

/-- A fully-populated job bearing the hard-coded name, with one
container holding an empty env list. -/
def jobMagic : CronJob :=
  { metadata := { name := some magicName }
    spec := some (specWith [{ env := some [] }]) }

/-- A fully-populated job bearing the hard-coded name, with one
container whose env holds an unrelated entry. -/
def jobC10 : CronJob :=
  { metadata := { name := some magicName }
    spec := some (specWith [{ env := some [⟨"OTHER", some "v"⟩] }]) }

/-- A dry-run configuration with the CLI defaults. -/
def cfgDry : Config :=
  { dry_run := true, rank := 3, env_key := none, timezone := "Europe/Berlin"
    timeout := 28800, grace := 28800, channels := "" }

/-- A live configuration with an env key. -/
def cfgLive : Config :=
  { dry_run := false, rank := 3, env_key := some "HC_ID", timezone := "Europe/Berlin"
    timeout := 28800, grace := 28800, channels := "" }

/-- A live configuration with a second env key. -/
def cfgC10 : Config :=
  { dry_run := false, rank := 3, env_key := some "HC_ID2", timezone := "Europe/Berlin"
    timeout := 28800, grace := 28800, channels := "" }

/-- A monitoring-service oracle whose upsert call always fails. -/
def upsertNone : Upsert := fun _ => none

/-- A monitoring-service oracle that always reports `Created` with
check id `"abc123"`. -/
def upsertOkAbc : Upsert := fun _ => some (.created, some "abc123")

/-! ### Lemmas about the counting fold -/

theorem lookup_cons (k : String) (v : Nat) (rest : List (String × Nat)) (s : String) :
    ((k, v) :: rest).lookup s = if s = k then some v else rest.lookup s := by
  by_cases h : s = k
  · subst h
    simp [List.lookup]
  · have hb : (s == k) = false := beq_eq_false_iff_ne.mpr h
    simp [List.lookup, hb, h]

theorem lookup_bump_self (m : List (String × Nat)) (x : String) :
    (bump m x).lookup x = some (((m.lookup x).getD 0 + 1) % 256) := by
  induction m with
  | nil => simp [bump, lookup_cons, List.lookup]
  | cons kv rest ih =>
    obtain ⟨k, v⟩ := kv
    by_cases hk : k = x
    · subst hk
      simp [bump, lookup_cons]
    · have hxk : x ≠ k := fun h => hk h.symm
      simp [bump, hk, lookup_cons, hxk, ih]

theorem lookup_bump_ne (m : List (String × Nat)) (x s : String) (h : s ≠ x) :
    (bump m x).lookup s = m.lookup s := by
  induction m with
  | nil =>
    show ([(x, 1 % 256)].lookup s) = ([] : List (String × Nat)).lookup s
    rw [lookup_cons, if_neg h]
  | cons kv rest ih =>
    obtain ⟨k, v⟩ := kv
    by_cases hk : k = x
    · subst hk
      simp [bump, lookup_cons, h]
    · simp [bump, hk, lookup_cons, ih]

theorem countSegments_append (items : List String) (x : String) :
    countSegments (items ++ [x]) = bump (countSegments items) x := by
  simp [countSegments, List.foldl_append]

theorem countSegments_lookup (items : List String) (s : String) :
    (countSegments items).lookup s =
      if s ∈ items then some (items.count s % 256) else none := by
  induction items using List.reverseRecOn with
  | nil => simp [countSegments, List.lookup]
  | append_singleton items x ih =>
    rw [countSegments_append]
    by_cases hs : s = x
    · subst hs
      rw [lookup_bump_self, ih]
      by_cases hmem : s ∈ items
      · simp [hmem, List.count_append, Nat.mod_add_mod]
      · have hc : items.count s = 0 := List.count_eq_zero.mpr hmem
        simp [hmem, List.count_append, hc]
    · rw [lookup_bump_ne _ _ _ hs, ih]
      have hc : (items ++ [x]).count s = items.count s := by
        simp [List.count_append, List.count_singleton', hs]
      simp [List.mem_append, hs, hc]

theorem keys_bump (m : List (String × Nat)) (x : String) :
    (bump m x).map Prod.fst =
      if (m.lookup x).isSome then m.map Prod.fst else m.map Prod.fst ++ [x] := by
  induction m with
  | nil => simp [bump, List.lookup]
  | cons kv rest ih =>
    obtain ⟨k, v⟩ := kv
    by_cases hk : k = x
    · subst hk
      simp [bump, lookup_cons]
    · have hxk : x ≠ k := fun h => hk h.symm
      rw [lookup_cons, if_neg hxk]
      by_cases hsome : (rest.lookup x).isSome <;>
        simp [bump, hk, hsome, ih]

theorem lookup_eq_none_iff (m : List (String × Nat)) (s : String) :
    m.lookup s = none ↔ s ∉ m.map Prod.fst := by
  induction m with
  | nil => simp [List.lookup]
  | cons kv rest ih =>
    obtain ⟨k, v⟩ := kv
    rw [lookup_cons]
    by_cases h : s = k
    · subst h
      simp
    · simp [h, ih]

theorem nodupKeys_countSegments (items : List String) :
    ((countSegments items).map Prod.fst).Nodup := by
  induction items using List.reverseRecOn with
  | nil => simp [countSegments]
  | append_singleton items x ih =>
    rw [countSegments_append, keys_bump]
    split
    · exact ih
    · rename_i h
      have hx : x ∉ (countSegments items).map Prod.fst :=
        (lookup_eq_none_iff _ _).mp (Option.not_isSome_iff_eq_none.mp h)
      simp [List.nodup_append, ih, hx]

theorem nodupKeys_filter (m : List (String × Nat)) (p : String × Nat → Bool)
    (h : (m.map Prod.fst).Nodup) : ((m.filter p).map Prod.fst).Nodup :=
  ((List.filter_sublist m).map Prod.fst).nodup h

theorem lookup_filter (m : List (String × Nat)) (p : String × Nat → Bool) (s : String)
    (h : (m.map Prod.fst).Nodup) :
    (m.filter p).lookup s =
      (m.lookup s).bind fun v => if p (s, v) then some v else none := by
  induction m with
  | nil => simp [List.lookup]
  | cons kv rest ih =>
    obtain ⟨k, v⟩ := kv
    simp only [List.map_cons, List.nodup_cons] at h
    obtain ⟨hk, hrest⟩ := h
    by_cases hs : s = k
    · subst hs
      by_cases hp : p (s, v)
      · simp [List.filter_cons, hp, lookup_cons]
      · have hnone : (rest.filter p).lookup s = none := by
          rw [lookup_eq_none_iff]
          intro hmem
          exact hk (((List.filter_sublist rest).map Prod.fst).subset hmem)
        simp [List.filter_cons, hp, lookup_cons, hnone]
    · by_cases hp : p (k, v) <;>
        simp [List.filter_cons, hp, lookup_cons, hs, ih hrest]

theorem commonTags_eq (names : List String) (rank : Nat) :
    commonTags names rank =
      if rank > 0 then
        ((countSegments (population names)).filter fun kv => kv.1 ≠ "job").filter
          fun kv => rank ≤ kv.2
      else (countSegments (population names)).filter fun kv => kv.1 ≠ "job" := rfl

theorem containsKey_commonTags (names : List String) (r : Nat) (s : String) :
    containsKey (commonTags names r) s = true ↔
      s ∈ population names ∧ s ≠ "job" ∧ (r = 0 ∨ r ≤ popCount names s % 256) := by
  have h1 := nodupKeys_countSegments (population names)
  have h2 := nodupKeys_filter _ (fun kv => decide (kv.1 ≠ "job")) h1
  unfold containsKey
  rw [commonTags_eq]
  by_cases hr : r = 0
  · subst hr
    rw [if_neg (lt_irrefl 0)]
    rw [lookup_filter _ _ _ h1, countSegments_lookup]
    by_cases hmem : s ∈ population names
    · by_cases hjob : s = "job" <;> simp [hmem, hjob]
    · simp [hmem]
  · rw [if_pos (Nat.pos_of_ne_zero hr)]
    rw [lookup_filter _ _ _ h2, lookup_filter _ _ _ h1, countSegments_lookup]
    by_cases hmem : s ∈ population names
    · by_cases hjob : s = "job"
      · simp [hmem, hjob]
      · by_cases hrank : r ≤ (population names).count s % 256 <;>
          simp [hmem, hjob, hrank, popCount, hr]
    · simp [hmem]

/-! ### Lemmas about string joining -/

theorem foldl_append_shift (l : List String) (b : String) :
    l.foldl (fun r s => r ++ s) b = b ++ l.foldl (fun r s => r ++ s) "" := by
  induction l generalizing b with
  | nil => simp [String.append_empty]
  | cons a t ih =>
    simp only [List.foldl_cons]
    rw [ih (b ++ a), ih ("" ++ a), String.empty_append, String.append_assoc]

theorem join_cons (a : String) (l : List String) :
    String.join (a :: l) = a ++ String.join l := by
  show (a :: l).foldl (fun r s => r ++ s) "" = a ++ l.foldl (fun r s => r ++ s) ""
  simp only [List.foldl_cons]
  rw [String.empty_append, foldl_append_shift]

theorem join_intersperse_cons (t : List String) (a : String) :
    String.join ((a :: t).intersperse " ") =
      a ++ String.join (t.map fun x => " " ++ x) := by
  induction t generalizing a with
  | nil =>
    show String.join [a] = a ++ String.join []
    rw [join_cons]
  | cons b t' ih =>
    show String.join (a :: " " :: (b :: t').intersperse " ") = _
    rw [join_cons, join_cons, ih b]
    simp [join_cons, String.append_assoc]

theorem intercalate_go_spec (t : List String) (acc : String) :
    String.intercalate.go acc " " t = acc ++ String.join (t.map fun x => " " ++ x) := by
  induction t generalizing acc with
  | nil =>
    show acc = acc ++ String.join []
    rw [show String.join [] = "" from rfl, String.append_empty]
  | cons b t' ih =>
    show String.intercalate.go (acc ++ " " ++ b) " " t' = _
    rw [ih]
    simp [join_cons, String.append_assoc]

theorem tagsFor_eq_intercalate (vocab : String → Bool) (name : String) :
    tagsFor vocab name = String.intercalate " " ((segs name).filter vocab) := by
  unfold tagsFor
  cases h : (segs name).filter vocab with
  | nil => rfl
  | cons a t =>
    rw [join_intersperse_cons]
    show _ = String.intercalate.go a " " t
    rw [intercalate_go_spec]

/-! ### Lemmas about the annotator and the descriptor adapter -/

theorem annotateEnv_not_found (key checkId : String) (env : List EnvVar)
    (h : env.find? (fun e => e.name = key) = none) :
    annotateEnv key checkId env = (env ++ [⟨key, some checkId⟩], true) := by
  induction env with
  | nil => rfl
  | cons e rest ih =>
    by_cases he : e.name = key
    · rw [List.find?_cons_of_pos _ (by simp [he])] at h
      exact Option.noConfusion h
    · rw [List.find?_cons_of_neg _ (by simp [he])] at h
      simp [annotateEnv, he, ih h]

theorem annotateEnv_found (key checkId : String) (env : List EnvVar) (e : EnvVar)
    (h : env.find? (fun e => e.name = key) = some e) :
    (e.value = some checkId → annotateEnv key checkId env = (env, false)) ∧
    (∀ x, e.value = some x → x ≠ checkId →
      annotateEnv key checkId env = (setFirstValue key checkId env, true)) ∧
    (e.value = none →
      annotateEnv key checkId env = (env ++ [⟨key, some checkId⟩], true)) := by
  induction env with
  | nil => exact Option.noConfusion h
  | cons e0 rest ih =>
    by_cases he : e0.name = key
    · rw [List.find?_cons_of_pos _ (by simp [he])] at h
      obtain rfl : e0 = e := by injection h
      refine ⟨?_, ?_, ?_⟩
      · intro hv
        simp [annotateEnv, he, hv]
      · intro x hv hx
        simp [annotateEnv, he, hv, hx, setFirstValue]
      · intro hv
        simp [annotateEnv, he, hv]
    · rw [List.find?_cons_of_neg _ (by simp [he])] at h
      obtain ⟨h1, h2, h3⟩ := ih h
      refine ⟨?_, ?_, ?_⟩
      · intro hv
        simp [annotateEnv, he, h1 hv]
      · intro x hv hx
        simp [annotateEnv, he, h2 x hv hx, setFirstValue]
      · intro hv
        simp [annotateEnv, he, h3 hv]

theorem annotateContainers_eq (key checkId : String) (cs : List Container) :
    annotateContainers key checkId cs =
      ((cs.map (annotateContainer key checkId)).filter Prod.snd).map Prod.fst := by
  induction cs with
  | nil => rfl
  | cons c rest ih =>
    simp only [annotateContainers] at ih ⊢
    rw [List.filterMap_cons]
    cases hd : annotateContainer key checkId c with
    | mk c2 dirty =>
      cases dirty
      · simp [hd, List.filter_cons, ih]
      · simp [hd, List.filter_cons, ih]

theorem describe_setContainers (job : CronJob) (n sched : String)
    (cs cs' : List Container) (h : describe job = some (n, sched, cs)) :
    describe (setContainers job cs') = some (n, sched, cs') := by
  obtain ⟨⟨mname⟩, spec?⟩ := job
  cases mname with
  | none => simp [describe] at h
  | some nm =>
    cases spec? with
    | none => simp [describe] at h
    | some s =>
      obtain ⟨sched0, ⟨jts⟩⟩ := s
      cases jts with
      | none => simp [describe] at h
      | some js =>
        obtain ⟨⟨pts⟩⟩ := js
        cases pts with
        | none => simp [describe] at h
        | some ps =>
          simp [describe] at h
          obtain ⟨h1, h2, _⟩ := h
          subst h1
          subst h2
          simp [setContainers, describe]

theorem reconcileJob_snd_dry (cfg : Config) (upsert : Upsert) (vocab : String → Bool)
    (job : CronJob) (h : cfg.dry_run = true) :
    (reconcileJob cfg upsert vocab job).2 =
      match describe job with
      | none => []
      | some d => [Event.report d.1 (tagsFor vocab d.1)] := by
  unfold reconcileJob
  cases hd : describe job with
  | none => rfl
  | some d =>
    obtain ⟨n, sched, cs⟩ := d
    simp [h]

/-! ### Claim theorems -/

/-- C1 (code bug): the namespace loop hard-codes
`jobs.retain(|job| name == "sales-au-job-cleanup-shared-products-job")`,
so a listed job with a perfectly valid descriptor but another name is
dropped before descriptor extraction: it contributes nothing to the
vocabulary population and is never reconciled (here: a dry run over it
emits no event at all), contradicting the claim that every listed job
with a valid descriptor participates. -/
theorem c1_name_filter_drops_valid_jobs :
    describe jobOther = some ("some-other-cron", "0 0 * * *", [{ env := some [] }]) ∧
    descNames (retainJobs [jobOther, jobMagic]) = [magicName] ∧
    processNamespace cfgDry upsertNone [jobOther] = [] :=
  ⟨rfl, rfl, rfl⟩

/-- C2 counterexample: for the spec's two-name population at rank 2 the
code's vocabulary is NOT empty (the code filters with `count >= rank`,
not `count > rank`): `sales` is retained and the tag string of the
first job is non-empty. -/
theorem c2_counterexample :
    containsKey (commonTags names2 2) "sales" = true ∧
    tagsFor (fun s => containsKey (commonTags names2 2) s) magicName ≠ "" := by
  refine ⟨rfl, ?_⟩
  decide

/-- C2 amended: for the two-job population at rank 2 under the code's
strict (`count >= rank`) policy, the vocabulary retains `sales`, `au`,
`cleanup` and `products` (count 2 each, `job` excluded), and both jobs
get the tag string `"sales au cleanup products"`. -/
theorem c2_amended_strict_policy :
    commonTags names2 2 = [("sales", 2), ("au", 2), ("cleanup", 2), ("products", 2)] ∧
    tagsFor (fun s => containsKey (commonTags names2 2) s) magicName =
      "sales au cleanup products" ∧
    tagsFor (fun s => containsKey (commonTags names2 2) s) otherName =
      "sales au cleanup products" :=
  ⟨rfl, rfl, rfl⟩

/-- C3: every segment retained in the vocabulary satisfies the code's
configured (strict) threshold policy: for `rank > 0`, a retained
segment's population count is at least `rank`; and `rank = 0` is
special-cased to no filtering: exactly the occurring segments other
than `"job"` are retained. -/
theorem c3_threshold_invariant (names : List String) (r : Nat) (s : String) :
    (containsKey (commonTags names r) s = true →
      s ≠ "job" ∧ (r = 0 ∨ r ≤ popCount names s)) ∧
    (r = 0 → (containsKey (commonTags names r) s = true ↔
      s ≠ "job" ∧ s ∈ population names)) := by
  constructor
  · intro h
    obtain ⟨_, hjob, hr⟩ := (containsKey_commonTags names r s).mp h
    refine ⟨hjob, ?_⟩
    cases hr with
    | inl h0 => exact Or.inl h0
    | inr hle => exact Or.inr (le_trans hle (Nat.mod_le _ _))
  · intro hr
    subst hr
    rw [containsKey_commonTags]
    constructor
    · rintro ⟨hmem, hjob, _⟩
      exact ⟨hjob, hmem⟩
    · rintro ⟨hjob, hmem⟩
      exact ⟨hmem, hjob, Or.inl rfl⟩

/-- Witness for C3 at the two-name population, rank 2, segment `sales`. -/
theorem c3_threshold_invariant_witness :
    "sales" ≠ "job" ∧ ((2 : Nat) = 0 ∨ 2 ≤ popCount names2 "sales") :=
  (c3_threshold_invariant names2 2 "sales").1 rfl

/-- C4: the tag string equals the `-`-split segments that are members
of the vocabulary, in the name's own order (a sublist of the segment
list), joined with single spaces, without deduplication (a segment
occurs in the chosen list exactly as often as in the name when it is in
the vocabulary, and never otherwise). -/
theorem c4_tag_string (vocab : String → Bool) (name : String) :
    tagsFor vocab name = String.intercalate " " ((segs name).filter vocab) ∧
    ((segs name).filter vocab).Sublist (segs name) ∧
    ∀ s, ((segs name).filter vocab).count s =
      if vocab s then (segs name).count s else 0 := by
  refine ⟨tagsFor_eq_intercalate vocab name, List.filter_sublist _, ?_⟩
  intro s
  by_cases hv : vocab s
  · rw [if_pos hv, List.count_filter (by simpa using hv)]
  · rw [if_neg hv, List.count_eq_zero]
    intro hmem
    exact hv (List.mem_filter.mp hmem).2

/-- C5: the literal segment `"job"` is never among the computed tag
segments of any job, for any population and any rank: the vocabulary
removes the `"job"` key before thresholding, so the tag filter never
keeps it. -/
theorem c5_job_never_tagged (names : List String) (r : Nat) (name : String) :
    "job" ∉ (segs name).filter fun s => containsKey (commonTags names r) s := by
  intro hmem
  have h := (List.mem_filter.mp hmem).2
  obtain ⟨_, hjob, _⟩ := (containsKey_commonTags names r "job").mp (by simpa using h)
  exact hjob rfl

/-- C6 counterexample: a container with no env list at all falsifies
the claim: no entry with the key is found among its (zero) environment
entries, so the claim demands an appended entry and a dirty mark, but
the code skips the container entirely (unchanged, clean). -/
theorem c6_counterexample : ¬ claimC6Holds "HC_ID" "abc123" { env := none } := by
  simp [claimC6Holds, envEntries, annotateContainer]

/-- C6 amended: for containers that do have an env list, the first
entry whose key matches decides: value equal to the identifier leaves
everything unchanged and clean; a differing present value is
overwritten in place and marks dirty; no matching entry, or a first
matching entry carrying no value, causes a fresh `{key, identifier}`
entry to be appended at the end and marks dirty.  A container without
an env list is skipped unchanged and marked clean. -/
theorem c6_amended_annotator (key checkId : String) (c : Container) :
    (c.env = none → annotateContainer key checkId c = (c, false)) ∧
    (∀ env, c.env = some env →
      (env.find? (fun e => e.name = key) = none →
        annotateContainer key checkId c =
          ({ env := some (env ++ [⟨key, some checkId⟩]) }, true)) ∧
      (∀ e, env.find? (fun e => e.name = key) = some e →
        (e.value = some checkId → annotateContainer key checkId c = (c, false)) ∧
        (∀ x, e.value = some x → x ≠ checkId →
          annotateContainer key checkId c =
            ({ env := some (setFirstValue key checkId env) }, true)) ∧
        (e.value = none →
          annotateContainer key checkId c =
            ({ env := some (env ++ [⟨key, some checkId⟩]) }, true)))) := by
  obtain ⟨ce⟩ := c
  constructor
  · intro h
    simp only at h
    subst h
    rfl
  · intro env henv
    simp only at henv
    subst henv
    constructor
    · intro hf
      simp [annotateContainer, annotateEnv_not_found key checkId env hf]
    · intro e hf
      obtain ⟨h1, h2, h3⟩ := annotateEnv_found key checkId env e hf
      refine ⟨?_, ?_, ?_⟩
      · intro hv
        simp [annotateContainer, h1 hv]
      · intro x hv hx
        simp [annotateContainer, h2 x hv hx]
      · intro hv
        simp [annotateContainer, h3 hv]

/-- Witness for C6 amended: the env-less container is skipped clean. -/
theorem c6_amended_annotator_witness :
    annotateContainer "HC_ID" "abc123" { env := none } = ({ env := none }, false) :=
  (c6_amended_annotator "HC_ID" "abc123" { env := none }).1 rfl

/-- C7 (code bug): a job whose upsert call fails is never annotated —
the reconciler leaves it byte-for-byte unchanged — yet the write-back
loop still submits it to the cluster replace call, because the loop's
only guard is a non-empty container list.  This contradicts the claim
that a job with no mutated container is never written back. -/
theorem c7_unmutated_job_written_back :
    (reconcileJob cfgLive upsertNone (vocabOf cfgLive.rank [jobMagic]) jobMagic).1 =
      jobMagic ∧
    processNamespace cfgLive upsertNone [jobMagic] =
      [Event.upsertCheck (mkCheck cfgLive magicName "0 0 * * *" ""),
       Event.replaceJob magicName jobMagic] :=
  ⟨rfl, rfl⟩

/-- C8: with dry-run active, the whole run performs no mutating remote
call (no delete, no upsert, no replace), and every processed job with a
valid descriptor gets its name and computed tags reported instead. -/
theorem c8_dry_run_purity (cfg : Config) (clearExisting : Bool)
    (checkIds : List (Option String)) (upsert : Upsert) (nss : List (List CronJob))
    (hdry : cfg.dry_run = true) :
    (∀ e ∈ run cfg clearExisting checkIds upsert nss, e.isMutating = false) ∧
    (∀ jobs ∈ nss, ∀ job ∈ retainJobs jobs, ∀ d, describe job = some d →
      Event.report d.1 (tagsFor (vocabOf cfg.rank (retainJobs jobs)) d.1) ∈
        run cfg clearExisting checkIds upsert nss) := by
  have hpre : (if ¬cfg.dry_run ∧ clearExisting then
      (checkIds.filterMap id).map Event.deleteCheck else []) = [] := by
    rw [if_neg]
    simp [hdry]
  constructor
  · intro e he
    unfold run at he
    rw [hpre, List.nil_append, List.mem_flatten] at he
    obtain ⟨tr, htr, hetr⟩ := he
    rw [List.mem_map] at htr
    obtain ⟨jobs, hjobs, rfl⟩ := htr
    simp only [processNamespace, hdry, if_true] at hetr
    rw [List.mem_flatten] at hetr
    obtain ⟨l, hl, hel⟩ := hetr
    rw [List.mem_map] at hl
    obtain ⟨pr, hpr, rfl⟩ := hl
    rw [List.mem_map] at hpr
    obtain ⟨job, hjob, rfl⟩ := hpr
    rw [reconcileJob_snd_dry _ _ _ _ hdry] at hel
    cases hd : describe job with
    | none =>
      rw [hd] at hel
      exact absurd hel (List.not_mem_nil e)
    | some d =>
      rw [hd] at hel
      rw [List.mem_singleton] at hel
      subst hel
      rfl
  · intro jobs hjobs job hjob d hd
    unfold run
    rw [hpre, List.nil_append, List.mem_flatten]
    refine ⟨processNamespace cfg upsert jobs, List.mem_map_of_mem _ hjobs, ?_⟩
    simp only [processNamespace, hdry, if_true]
    rw [List.mem_flatten]
    refine ⟨(reconcileJob cfg upsert (vocabOf cfg.rank (retainJobs jobs)) job).2,
      List.mem_map_of_mem _ (List.mem_map_of_mem _ hjob), ?_⟩
    rw [reconcileJob_snd_dry _ _ _ _ hdry, hd]
    exact List.mem_singleton.mpr rfl

/-- Witness for C8 at a concrete dry run over the hard-coded-name job. -/
theorem c8_dry_run_purity_witness :
    (∀ e ∈ run cfgDry true [some "cid"] upsertNone [[jobMagic]],
      e.isMutating = false) ∧
    Event.report magicName "" ∈ run cfgDry true [some "cid"] upsertNone [[jobMagic]] := by
  have h := c8_dry_run_purity cfgDry true [some "cid"] upsertNone [[jobMagic]] rfl
  refine ⟨h.1, ?_⟩
  exact h.2 [jobMagic] (List.mem_singleton.mpr rfl) jobMagic (by decide)
    (magicName, "0 0 * * *", [{ env := some [] }]) rfl

/-- C9: descriptor extraction returns `none` exactly when the name, the
top-level spec, the nested job-template spec or the pod-template spec
is absent (the schedule is a required field of the spec type and cannot
be independently absent), and such a job is untouched by reconciliation
(no event, job unchanged) and skipped by the write-back loop. -/
theorem c9_descriptor_extraction (job : CronJob) :
    (describe job = none ↔
      job.metadata.name = none ∨ job.spec = none ∨
      (∃ s, job.spec = some s ∧ s.job_template.spec = none) ∨
      (∃ s js, job.spec = some s ∧ s.job_template.spec = some js ∧
        js.template.spec = none)) ∧
    (describe job = none →
      (∀ cfg upsert vocab, reconcileJob cfg upsert vocab job = (job, [])) ∧
      writeBackEntry job = none) := by
  constructor
  · obtain ⟨⟨mname⟩, spec?⟩ := job
    cases mname with
    | none => simp [describe]
    | some nm =>
      cases spec? with
      | none => simp [describe]
      | some s =>
        obtain ⟨sched0, ⟨jts⟩⟩ := s
        cases jts with
        | none => simp [describe]
        | some js =>
          obtain ⟨⟨pts⟩⟩ := js
          cases pts with
          | none => simp [describe]
          | some ps => simp [describe]
  · intro h
    refine ⟨?_, ?_⟩
    · intro cfg upsert vocab
      unfold reconcileJob
      rw [h]
    · unfold writeBackEntry
      rw [h]

/-- Witness for C9: a job with a name but no spec is left alone by the
reconciler and skipped by the write-back loop. -/
theorem c9_descriptor_extraction_witness :
    reconcileJob cfgDry upsertNone (fun _ => false)
      { metadata := { name := some "x" }, spec := none } =
      ({ metadata := { name := some "x" }, spec := none }, []) ∧
    writeBackEntry { metadata := { name := some "x" }, spec := none } = none := by
  have h := (c9_descriptor_extraction
    { metadata := { name := some "x" }, spec := none }).2 rfl
  exact ⟨h.1 cfgDry upsertNone (fun _ => false), h.2⟩

/-- C10 counterexample: when the upsert fails, the job is written back
verbatim — its container list is the full listed one, not the list of
annotator-mutated containers (the annotator never ran and mutated
nothing, so the claim would demand an empty submitted list). -/
theorem c10_counterexample :
    processNamespace cfgC10 upsertNone [jobC10] =
      [Event.upsertCheck (mkCheck cfgC10 magicName "0 0 * * *" ""),
       Event.replaceJob magicName jobC10] ∧
    describe jobC10 =
      some (magicName, "0 0 * * *", [{ env := some [⟨"OTHER", some "v"⟩] }]) ∧
    (reconcileJob cfgC10 upsertNone (vocabOf cfgC10.rank [jobC10]) jobC10).1 =
      jobC10 :=
  ⟨rfl, rfl, rfl⟩

/-- C10 amended: for a job whose reconciliation did obtain a check id
(dry-run off, env key configured, upsert successful), the job standing
at write-back time carries exactly the containers the annotator marked
dirty — mutated in place, with clean containers (already-correct value,
or no env list) removed — and nothing else of the job is changed. -/
theorem c10_amended_frame (cfg : Config) (upsert : Upsert) (vocab : String → Bool)
    (job : CronJob) (n sched : String) (cs : List Container) (key checkId : String)
    (st : UpsertStatus)
    (hdry : cfg.dry_run = false)
    (hdesc : describe job = some (n, sched, cs))
    (hkey : cfg.env_key = some key)
    (hup : upsert (mkCheck cfg n sched (tagsFor vocab n)) = some (st, some checkId)) :
    (reconcileJob cfg upsert vocab job).1 =
      setContainers job
        (((cs.map (annotateContainer key checkId)).filter Prod.snd).map Prod.fst) ∧
    describe (reconcileJob cfg upsert vocab job).1 =
      some (n, sched,
        ((cs.map (annotateContainer key checkId)).filter Prod.snd).map Prod.fst) := by
  have h1 : (reconcileJob cfg upsert vocab job).1 =
      setContainers job (annotateContainers key checkId cs) := by
    unfold reconcileJob
    rw [hdesc]
    simp [hdry, hup, hkey]
  rw [annotateContainers_eq] at h1
  refine ⟨h1, ?_⟩
  rw [h1]
  exact describe_setContainers job n sched cs _ hdesc

/-- Witness for C10 amended: a successful upsert with an env key leads
to a write-back job holding exactly the one dirty container. -/
theorem c10_amended_frame_witness :
    (reconcileJob cfgLive upsertOkAbc (fun _ => false) jobMagic).1 =
      setContainers jobMagic [{ env := some [⟨"HC_ID", some "abc123"⟩] }] := by
  have h := c10_amended_frame cfgLive upsertOkAbc (fun _ => false) jobMagic magicName
    "0 0 * * *" [{ env := some [] }] "HC_ID" "abc123" UpsertStatus.created
    rfl rfl rfl rfl
  exact h.1

end Healthkube
